import Mathlib

/-!
Verification of the Command Authorization & Failsafe Engine of the
AI-in-WarFare battlefield simulation (src/simulation.py).

The engine state (class `SecurityEngine`), the tamper-evident audit ledger
(class `BlackBoxLedger`), the engagement workflow
(`start_engagement_workflow`) and the kill-switch protocol
(`arm_kill_switch` / `execute_kill_switch`) are embedded shallowly:

* wall-clock timestamps and the anomaly score are rationals (`ℚ`);
* the Python dicts `approvals : officer -> ts` and `ledger : nonce -> ts`
  become association lists in which insertion overwrites the old binding,
  so the key sets coincide with the dicts' key sets;
* the deque `cmd_times` becomes a list with `append` at the back and the
  `popleft`-while-stale loop as `dropWhile` at the front;
* the calls `log_event(...)` inside `SecurityEngine.incident` are made
  observable through an `incidentLog` field recording the incident kinds,
  in the order raised (most recent first);
* `hashlib.sha256` is abstracted as a parameter `H : String → String`;
  the chaining structure `h = H(prev_hash ++ payload)` with
  `payload = ts ++ " " ++ text` is taken verbatim from the source.
-/

/-- Result of `SecurityEngine.validate_nonce`: the source returns
`(False, "Replay detected ...")`, `(False, "Expired command TTL")` or
`(True, "Nonce accepted")`; the three cases are the three constructors. -/
inductive NonceResult where
  | Accepted
  | RejectedReplay
  | RejectedExpired
deriving DecidableEq

/-- Failsafe ladder returned by `SecurityEngine.failsafe_state`
(the source uses the strings "NONE", "DEGRADE", "HOLD", "RTB"). -/
inductive FailsafeMode where
  | NONE
  | DEGRADE
  | HOLD
  | RTB
deriving DecidableEq

/-- State of the Python class `SecurityEngine` (src/simulation.py lines
163-256), restricted to the fields the security logic reads and writes.
`incidentLog` records the kinds passed to `incident`, newest first. -/
structure SecurityEngine where
  approvals : List (String × ℚ)
  approvals_ttl : ℚ
  required_engage : ℕ
  required_kill : ℕ
  ledger : List (ℕ × ℚ)
  nonce_ttl : ℚ
  cmd_times : List ℚ
  rate_window : ℚ
  max_cmds : ℕ
  anomaly_score : ℚ
  incidentLog : List String
deriving DecidableEq

/-- Initial engine state, from `SecurityEngine.__init__`. -/
def SecurityEngine.init : SecurityEngine where
  approvals := []
  approvals_ttl := 12
  required_engage := 2
  required_kill := 2
  ledger := []
  nonce_ttl := 20
  cmd_times := []
  rate_window := 6
  max_cmds := 8
  anomaly_score := 0
  incidentLog := []

/-- Lookup in the nonce ledger association list; `(ledgerLookup n l).isSome`
corresponds to the Python membership test `nonce in self.ledger`. -/
def ledgerLookup (n : ℕ) : List (ℕ × ℚ) → Option ℚ
  | [] => none
  | (m, t) :: rest => if n = m then some t else ledgerLookup n rest

/-- The clean-up loop at the end of `validate_nonce`: delete every entry
with `now - ts > nonce_ttl` (keep those with `now - ts ≤ nonce_ttl`). -/
def pruneLedger (now ttl : ℚ) (l : List (ℕ × ℚ)) : List (ℕ × ℚ) :=
  l.filter (fun p => decide (now - p.2 ≤ ttl))

/-- Embedding of `SecurityEngine.validate_nonce` (lines 208-222): replay
check first, then TTL check, then insert and lazily prune. The pruning
loop runs only on the accepting path, exactly as in the source, where the
replay and expiry branches return early. -/
def validate_nonce (e : SecurityEngine) (nonce : ℕ) (ts now : ℚ) :
    NonceResult × SecurityEngine :=
  if (ledgerLookup nonce e.ledger).isSome then
    (NonceResult.RejectedReplay, e)
  else if e.nonce_ttl < now - ts then
    (NonceResult.RejectedExpired, e)
  else
    (NonceResult.Accepted,
      { e with ledger := pruneLedger now e.nonce_ttl ((nonce, ts) :: e.ledger) })

/-- Embedding of `SecurityEngine.clear_old_approvals` (lines 194-196):
keep approvals with `now - t ≤ approvals_ttl`. -/
def clear_old_approvals (e : SecurityEngine) (now : ℚ) : SecurityEngine :=
  { e with approvals := e.approvals.filter (fun p => decide (now - p.2 ≤ e.approvals_ttl)) }

/-- Embedding of `SecurityEngine.add_approval` (lines 198-200): the dict
assignment `self.approvals[officer] = now` overwrites any previous binding
for the same officer. -/
def add_approval (e : SecurityEngine) (officer : String) (now : ℚ) : SecurityEngine :=
  { e with approvals := (officer, now) :: e.approvals.filter (fun p => decide (p.1 ≠ officer)) }

/-- Embedding of `SecurityEngine.approvals_ok` (lines 202-206): prune stale
approvals, then compare the count against the action's requirement; the
pruned engine is returned because the Python method mutates `approvals`. -/
def approvals_ok (e : SecurityEngine) (action : String) (now : ℚ) :
    Bool × SecurityEngine :=
  let e2 := clear_old_approvals e now
  let need := if action = "engage" then e2.required_engage else e2.required_kill
  (decide (need ≤ e2.approvals.length), e2)

/-- Embedding of `SecurityEngine.check_rate_limit` (lines 224-229): append
`now`, pop stale entries from the front, and compare against `max_cmds`. -/
def check_rate_limit (e : SecurityEngine) (now : ℚ) : Bool × SecurityEngine :=
  let q := (e.cmd_times ++ [now]).dropWhile (fun t => decide (e.rate_window < now - t))
  (decide (q.length ≤ e.max_cmds), { e with cmd_times := q })

/-- Severity weight table of `SecurityEngine.incident` (lines 233-240),
with the `.get(kind, 0.3)` default for unclassified kinds. -/
def severity (kind : String) : ℚ :=
  if kind = "replay_fail" then 0.7
  else if kind = "rate_limit" then 0.5
  else if kind = "rogue_node" then 0.9
  else if kind = "network_compromise" then 0.6
  else if kind = "civilian" then 1.0
  else if kind = "out_of_control" then 0.8
  else 0.3

/-- Embedding of `SecurityEngine.incident` (lines 231-242): add the kind's
severity weight, clamp at 3.0, and record the incident. -/
def incident (e : SecurityEngine) (kind : String) : SecurityEngine :=
  { e with anomaly_score := min 3 (e.anomaly_score + severity kind),
           incidentLog := kind :: e.incidentLog }

/-- Embedding of `SecurityEngine.decay_anomaly` (lines 244-246): subtract
0.02, floored at 0.0. -/
def decay_anomaly (e : SecurityEngine) : SecurityEngine :=
  { e with anomaly_score := max 0 (e.anomaly_score - 0.02) }

/-- Embedding of `SecurityEngine.failsafe_state` (lines 248-256):
thresholds checked high-to-low, first match wins. -/
def failsafe_state (e : SecurityEngine) : FailsafeMode :=
  if 2.2 ≤ e.anomaly_score then FailsafeMode.RTB
  else if 1.3 ≤ e.anomaly_score then FailsafeMode.HOLD
  else if 0.6 ≤ e.anomaly_score then FailsafeMode.DEGRADE
  else FailsafeMode.NONE

/-- Severity rank of the failsafe ladder, `NONE < DEGRADE < HOLD < RTB`,
used to state order preservation. -/
def modeSeverity : FailsafeMode → ℕ
  | FailsafeMode.NONE => 0
  | FailsafeMode.DEGRADE => 1
  | FailsafeMode.HOLD => 2
  | FailsafeMode.RTB => 3

/-- Embedding of `start_engagement_workflow` (lines 791-809), generalised
over the issued-at timestamp `ts` of the nonce tuple; the source call site
passes `ts = now` (it builds the tuple `(random nonce, time.time())`).
Gate order: quorum, then rate limit, then nonce validation, each
short-circuiting; a rate-limit failure raises the `rate_limit` incident
and a nonce failure raises the `replay_fail` incident. -/
def start_engagement_workflow_at (e : SecurityEngine) (now ts : ℚ) (nonce : ℕ) :
    Bool × SecurityEngine :=
  let a := approvals_ok e "engage" now
  if a.1 then
    let r := check_rate_limit a.2 now
    if r.1 then
      let v := validate_nonce r.2 nonce ts now
      if v.1 = NonceResult.Accepted then (true, v.2)
      else (false, incident v.2 "replay_fail")
    else (false, incident r.2 "rate_limit")
  else (false, a.2)

/-- Embedding of `start_engagement_workflow` as called in the source: the
nonce tuple's timestamp is the current time. -/
def start_engagement_workflow (e : SecurityEngine) (now : ℚ) (nonce : ℕ) :
    Bool × SecurityEngine :=
  start_engagement_workflow_at e now now nonce

/-- Scope argument of `execute_kill_switch` ("unit", "army", anything else
meaning fleet-wide). -/
inductive KillScope where
  | unit
  | army
  | fleet
deriving DecidableEq

/-- Outcome of a kill-switch execution attempt: the branch taken by
`execute_kill_switch` (not armed / approvals insufficient / executed). -/
inductive KillResult where
  | Executed
  | DeniedNotArmed
  | DeniedQuorum
deriving DecidableEq

/-- Result record of `execute_kill_switch`: branch outcome, the
`kill_switch_armed` flag after the call, the engine state after the call,
and the scoped action dispatched (`kill_selected_robot` /
`kill_selected_army` / `kill_all_robots`), if any. -/
structure KillOutcome where
  result : KillResult
  armed : Bool
  engine : SecurityEngine
  dispatched : Option KillScope
deriving DecidableEq

/-- Embedding of `arm_kill_switch` (lines 812-815): sets the global
`kill_switch_armed` flag to true, whatever its previous value. -/
def arm_kill_switch (_armed : Bool) : Bool := true

/-- Embedding of `execute_kill_switch` (lines 818-837): requires the armed
flag, re-checks the kill quorum, dispatches the scoped action, and resets
the armed flag only on the executing path. -/
def execute_kill_switch (e : SecurityEngine) (armed : Bool) (kind : KillScope)
    (now : ℚ) : KillOutcome :=
  if armed then
    let a := approvals_ok e "kill" now
    if a.1 then
      { result := KillResult.Executed, armed := false, engine := a.2,
        dispatched := some kind }
    else
      { result := KillResult.DeniedQuorum, armed := armed, engine := a.2,
        dispatched := none }
  else
    { result := KillResult.DeniedNotArmed, armed := armed, engine := e,
      dispatched := none }

/-- An operation touching the anomaly score: an incident of some kind, or
one decay step (`decay_anomaly` is called once per simulation frame). -/
inductive AnomalyOp where
  | inc (kind : String)
  | dec
deriving DecidableEq

/-- Apply one anomaly operation to the engine. -/
def applyAnomalyOp (e : SecurityEngine) : AnomalyOp → SecurityEngine
  | AnomalyOp.inc kind => incident e kind
  | AnomalyOp.dec => decay_anomaly e

/-- Apply a sequence of anomaly operations, oldest first. -/
def runAnomalyOps (e : SecurityEngine) (ops : List AnomalyOp) : SecurityEngine :=
  ops.foldl applyAnomalyOp e

/-- Apply a sequence of `add_approval` calls, oldest first; each element is
an (officer, time) pair. -/
def applyApprovals (e : SecurityEngine) (seq : List (String × ℚ)) : SecurityEngine :=
  seq.foldl (fun acc p => add_approval acc p.1 p.2) e

/-- Run a sequence of `validate_nonce` calls, oldest first; each element is
a (nonce, issued_at, now) triple. Results are discarded, only the engine
state is threaded. -/
def runValidate (e : SecurityEngine) : List (ℕ × ℚ × ℚ) → SecurityEngine
  | [] => e
  | c :: rest => runValidate (validate_nonce e c.1 c.2.1 c.2.2).2 rest

/-- The call times of a `validate_nonce` call sequence are nondecreasing
and bounded below by `t` (wall-clock time never runs backwards). -/
def chrono (t : ℚ) : List (ℕ × ℚ × ℚ) → Prop
  | [] => True
  | c :: rest => t ≤ c.2.2 ∧ chrono c.2.2 rest

/-- Time of the last call of a sequence, or `t` if the sequence is empty. -/
def lastTime (t : ℚ) : List (ℕ × ℚ × ℚ) → ℚ
  | [] => t
  | c :: rest => lastTime c.2.2 rest

/-- Invariant of the nonce ledger after `(nonce, ts)` has been accepted:
either the ledger still binds `nonce` to some timestamp not older than
`ts`, or enough wall-clock time has passed (bounded below by `t`) that
`(nonce, ts)` is past its TTL. -/
def Spent (nonce : ℕ) (ts ttl t : ℚ) (l : List (ℕ × ℚ)) : Prop :=
  (∃ v, ledgerLookup nonce l = some v ∧ ts ≤ v) ∨ ttl < t - ts

/-- State of the Python class `BlackBoxLedger` (src/simulation.py lines
130-160): `prev_hash` is the in-memory chain head ("GENESIS" on a fresh
store); `entries` models the lines appended to the persisted store, each
`(hash, ts, text)` standing for the line `hash | ts text`. The SHA-256
digest is abstracted as a function parameter `H` on strings. -/
structure BlackBoxLedger where
  prev_hash : String
  entries : List (String × String × String)
deriving DecidableEq

/-- A fresh ledger with no persisted store: `prev_hash` is the genesis
constant "GENESIS". -/
def BlackBoxLedger.init : BlackBoxLedger :=
  { prev_hash := "GENESIS", entries := [] }

/-- Embedding of `BlackBoxLedger.append` (lines 149-160): the payload is
the timestamp and the text separated by one space, the new hash is
`H(prev_hash ++ payload)`, the line is persisted and `prev_hash` updated. -/
def BlackBoxLedger.append (H : String → String) (L : BlackBoxLedger)
    (ts text : String) : BlackBoxLedger :=
  let payload := ts ++ " " ++ text
  let h := H (L.prev_hash ++ payload)
  { prev_hash := h, entries := L.entries ++ [(h, ts, text)] }

/-- Append a sequence of (timestamp, text) events, oldest first. -/
def buildLedger (H : String → String) (L : BlackBoxLedger) :
    List (String × String) → BlackBoxLedger
  | [] => L
  | p :: rest => buildLedger H (L.append H p.1 p.2) rest

/-- Recompute the hash chain over stored (timestamp, payload-text) pairs
from a given chain head, using the same formula as
`BlackBoxLedger.append`. -/
def recomputeChain (H : String → String) (prev : String) :
    List (String × String) → List String
  | [] => []
  | p :: rest => H (prev ++ (p.1 ++ " " ++ p.2)) :: recomputeChain H (H (prev ++ (p.1 ++ " " ++ p.2))) rest

/-- Stored hash column of the persisted ledger lines. -/
def storedHashes (L : BlackBoxLedger) : List String :=
  L.entries.map (fun r => r.1)

/-- Stored (timestamp, payload-text) columns of the persisted ledger
lines, the data `verify` would recompute the chain from. -/
def storedPairs (L : BlackBoxLedger) : List (String × String) :=
  L.entries.map (fun r => (r.2.1, r.2.2))

/-- Engine with fresh approvals from officers A and B (as after pressing
Q then W), used as a concrete test state. -/
def engineAB : SecurityEngine :=
  { SecurityEngine.init with approvals := [("A", 0), ("B", 0)] }

/-- Engine with fresh approvals from A and B and a rate window already
holding eight commands, used as a concrete test state. -/
def engineABfullRate : SecurityEngine :=
  { SecurityEngine.init with approvals := [("A", 0), ("B", 0)], cmd_times := [0, 0, 0, 0, 0, 0, 0, 0] }

/-- Engine with fresh approvals from A and B and nonce 5 already consumed,
used as a concrete test state. -/
def engineABreplay : SecurityEngine :=
  { SecurityEngine.init with approvals := [("A", 0), ("B", 0)], ledger := [(5, 0)] }

/-- Engine with approvals by officer A at t=0 and officer B at t=5, used
as a concrete test state for the kill quorum. -/
def engineAB5 : SecurityEngine :=
  { SecurityEngine.init with approvals := [("A", 0), ("B", 5)] }

/-! ## Helper lemmas -/

theorem severity_pos (kind : String) : 0 < severity kind := by
  unfold severity
  split_ifs <;> norm_num

theorem applyAnomalyOp_bounds (e : SecurityEngine) (op : AnomalyOp)
    (h0 : 0 ≤ e.anomaly_score) (h3 : e.anomaly_score ≤ 3) :
    0 ≤ (applyAnomalyOp e op).anomaly_score ∧ (applyAnomalyOp e op).anomaly_score ≤ 3 := by
  cases op with
  | inc kind =>
    refine ⟨le_min (by norm_num) ?_, min_le_left _ _⟩
    exact add_nonneg h0 (severity_pos kind).le
  | dec =>
    exact ⟨le_max_left _ _, max_le (by norm_num) (by linarith)⟩

theorem runAnomalyOps_bounds (ops : List AnomalyOp) (e : SecurityEngine)
    (h0 : 0 ≤ e.anomaly_score) (h3 : e.anomaly_score ≤ 3) :
    0 ≤ (runAnomalyOps e ops).anomaly_score ∧ (runAnomalyOps e ops).anomaly_score ≤ 3 := by
  induction ops generalizing e with
  | nil => exact ⟨h0, h3⟩
  | cons op rest ih =>
    have h := applyAnomalyOp_bounds e op h0 h3
    exact ih (applyAnomalyOp e op) h.1 h.2

/-! ## C5: failsafe mode thresholds and monotonicity -/

/-- C5: `failsafe_state` maps score ≥ 2.2 to RTB, 1.3 ≤ score < 2.2 to
HOLD, 0.6 ≤ score < 1.3 to DEGRADE and score < 0.6 to NONE, with the
exact boundary belonging to the higher mode, and it is order preserving
for the severity order NONE < DEGRADE < HOLD < RTB. -/
theorem failsafe_mode_thresholds_monotone :
    (∀ e : SecurityEngine,
      (failsafe_state e = FailsafeMode.RTB ↔ 2.2 ≤ e.anomaly_score) ∧
      (failsafe_state e = FailsafeMode.HOLD ↔ 1.3 ≤ e.anomaly_score ∧ e.anomaly_score < 2.2) ∧
      (failsafe_state e = FailsafeMode.DEGRADE ↔ 0.6 ≤ e.anomaly_score ∧ e.anomaly_score < 1.3) ∧
      (failsafe_state e = FailsafeMode.NONE ↔ e.anomaly_score < 0.6)) ∧
    (∀ e1 e2 : SecurityEngine, e1.anomaly_score ≤ e2.anomaly_score →
      modeSeverity (failsafe_state e1) ≤ modeSeverity (failsafe_state e2)) := by
  constructor
  · intro e
    unfold failsafe_state
    split_ifs with h1 h2 h3 <;>
      refine ⟨?_, ?_, ?_, ?_⟩ <;>
      simp only [reduceCtorEq, eq_self_iff_true, true_iff, iff_true, false_iff,
        iff_false, not_and, not_lt, not_le] <;>
      first
        | linarith
        | (constructor <;> linarith)
        | (intro hh; linarith)
  · intro e1 e2 h
    unfold failsafe_state
    split_ifs <;> simp [modeSeverity] <;> linarith

/-- Witness for the monotonicity hypothesis of
`failsafe_mode_thresholds_monotone` at two concrete engine states. -/
theorem failsafe_mode_thresholds_monotone_witness :
    SecurityEngine.init.anomaly_score ≤
      ({ SecurityEngine.init with anomaly_score := 2.2 } : SecurityEngine).anomaly_score ∧
    modeSeverity (failsafe_state SecurityEngine.init) ≤
      modeSeverity (failsafe_state { SecurityEngine.init with anomaly_score := 2.2 }) :=
  ⟨by norm_num [SecurityEngine.init],
   failsafe_mode_thresholds_monotone.2 SecurityEngine.init
     { SecurityEngine.init with anomaly_score := 2.2 }
     (by norm_num [SecurityEngine.init])⟩

/-! ## C6: anomaly score stays in [0, 3] -/

/-- C6: starting from the initial score 0.0, every sequence of incident
and decay operations keeps the anomaly score inside [0.0, 3.0]; a single
operation preserves the interval; `incident` adds the kind's severity
weight clamped above at 3.0, `decay_anomaly` subtracts 0.02 floored at
0.0, and the severity table is replay_fail 0.7, rate_limit 0.5,
rogue_node 0.9, network_compromise 0.6, civilian 1.0, out_of_control 0.8
with default 0.3 for unclassified kinds. -/
theorem anomaly_score_bounded :
    (∀ ops : List AnomalyOp,
      0 ≤ (runAnomalyOps SecurityEngine.init ops).anomaly_score ∧
      (runAnomalyOps SecurityEngine.init ops).anomaly_score ≤ 3) ∧
    (∀ (e : SecurityEngine) (op : AnomalyOp),
      0 ≤ e.anomaly_score → e.anomaly_score ≤ 3 →
      0 ≤ (applyAnomalyOp e op).anomaly_score ∧ (applyAnomalyOp e op).anomaly_score ≤ 3) ∧
    (∀ (e : SecurityEngine) (kind : String),
      (incident e kind).anomaly_score = min 3 (e.anomaly_score + severity kind)) ∧
    (∀ e : SecurityEngine, (decay_anomaly e).anomaly_score = max 0 (e.anomaly_score - 0.02)) ∧
    severity "replay_fail" = 0.7 ∧ severity "rate_limit" = 0.5 ∧
    severity "rogue_node" = 0.9 ∧ severity "network_compromise" = 0.6 ∧
    severity "civilian" = 1.0 ∧ severity "out_of_control" = 0.8 ∧
    (∀ kind : String, kind ≠ "replay_fail" → kind ≠ "rate_limit" →
      kind ≠ "rogue_node" → kind ≠ "network_compromise" → kind ≠ "civilian" →
      kind ≠ "out_of_control" → severity kind = 0.3) := by
  refine ⟨?_, applyAnomalyOp_bounds, fun e kind => rfl, fun e => rfl,
    ?_, ?_, ?_, ?_, ?_, ?_, ?_⟩
  · intro ops
    exact runAnomalyOps_bounds ops SecurityEngine.init (le_refl 0) (by norm_num [SecurityEngine.init])
  · simp [severity]
  · simp [severity]
  · simp [severity]
  · simp [severity]
  · simp [severity]
  · simp [severity]
  · intro kind h1 h2 h3 h4 h5 h6
    simp [severity, h1, h2, h3, h4, h5, h6]

/-- Witness for the hypotheses of `anomaly_score_bounded`: the interval
preservation applied at a concrete engine state and operation, and the
default severity weight applied at a concrete unclassified kind. -/
theorem anomaly_score_bounded_witness :
    (0 ≤ SecurityEngine.init.anomaly_score ∧ SecurityEngine.init.anomaly_score ≤ 3 ∧
      0 ≤ (applyAnomalyOp SecurityEngine.init (AnomalyOp.inc "civilian")).anomaly_score ∧
      (applyAnomalyOp SecurityEngine.init (AnomalyOp.inc "civilian")).anomaly_score ≤ 3) ∧
    ("misc" : String) ≠ "replay_fail" ∧ severity "misc" = 0.3 := by
  refine ⟨⟨by norm_num [SecurityEngine.init], by norm_num [SecurityEngine.init], ?_, ?_⟩, by simp, ?_⟩
  · exact (anomaly_score_bounded.2.1 SecurityEngine.init (AnomalyOp.inc "civilian")
      (by norm_num [SecurityEngine.init]) (by norm_num [SecurityEngine.init])).1
  · exact (anomaly_score_bounded.2.1 SecurityEngine.init (AnomalyOp.inc "civilian")
      (by norm_num [SecurityEngine.init]) (by norm_num [SecurityEngine.init])).2
  · exact anomaly_score_bounded.2.2.2.2.2.2.2.2.2.2 "misc" (by simp) (by simp) (by simp)
      (by simp) (by simp) (by simp)

/-! ## C7: validate_nonce check order and examples -/

theorem ledgerLookup_insert_pruned (n : ℕ) (ts now ttl : ℚ) (l : List (ℕ × ℚ))
    (h : now - ts ≤ ttl) :
    ledgerLookup n (pruneLedger now ttl ((n, ts) :: l)) = some ts := by
  simp [pruneLedger, List.filter, h, ledgerLookup]

/-- C7: `validate_nonce` checks replay first, expiry second, and only then
inserts and accepts; with the initial engine (ttl 20), nonce 42 issued at
t=0 is accepted at t=0, the same nonce is rejected as a replay at t=5,
and nonce 43 issued at t=-25 is rejected as expired at t=0. -/
theorem validate_nonce_order :
    (∀ (e : SecurityEngine) (n : ℕ) (ts now : ℚ),
      ((validate_nonce e n ts now).1 = NonceResult.RejectedReplay ↔
        (ledgerLookup n e.ledger).isSome) ∧
      ((validate_nonce e n ts now).1 = NonceResult.RejectedExpired ↔
        ledgerLookup n e.ledger = none ∧ e.nonce_ttl < now - ts) ∧
      ((validate_nonce e n ts now).1 = NonceResult.Accepted ↔
        ledgerLookup n e.ledger = none ∧ now - ts ≤ e.nonce_ttl) ∧
      ((validate_nonce e n ts now).1 ≠ NonceResult.Accepted →
        (validate_nonce e n ts now).2 = e) ∧
      ((validate_nonce e n ts now).1 = NonceResult.Accepted →
        ledgerLookup n (validate_nonce e n ts now).2.ledger = some ts)) ∧
    (validate_nonce SecurityEngine.init 42 0 0).1 = NonceResult.Accepted ∧
    (validate_nonce (validate_nonce SecurityEngine.init 42 0 0).2 42 0 5).1 =
      NonceResult.RejectedReplay ∧
    (validate_nonce SecurityEngine.init 43 (-25) 0).1 = NonceResult.RejectedExpired := by
  refine ⟨?_, ?_, ?_, ?_⟩
  · intro e n ts now
    rcases hl : ledgerLookup n e.ledger with _ | v
    · rcases le_or_lt (now - ts) e.nonce_ttl with hts | hts
      · simp [validate_nonce, hl, not_lt.mpr hts, hts]
        exact ledgerLookup_insert_pruned n ts now e.nonce_ttl e.ledger hts
      · simp [validate_nonce, hl, hts, not_le.mpr hts]
    · simp [validate_nonce, hl]
  · norm_num [validate_nonce, ledgerLookup, pruneLedger, List.filter, SecurityEngine.init]
  · norm_num [validate_nonce, ledgerLookup, pruneLedger, List.filter, SecurityEngine.init]
  · norm_num [validate_nonce, ledgerLookup, pruneLedger, List.filter, SecurityEngine.init]

/-- Witness for the hypotheses of `validate_nonce_order`: the
state-unchanged part applied at a rejected concrete call and the
insertion part applied at an accepted concrete call. -/
theorem validate_nonce_order_witness :
    ((validate_nonce SecurityEngine.init 43 (-25) 0).1 ≠ NonceResult.Accepted ∧
      (validate_nonce SecurityEngine.init 43 (-25) 0).2 = SecurityEngine.init) ∧
    ((validate_nonce SecurityEngine.init 42 0 0).1 = NonceResult.Accepted ∧
      ledgerLookup 42 (validate_nonce SecurityEngine.init 42 0 0).2.ledger = some 0) := by
  have hexp : (validate_nonce SecurityEngine.init 43 (-25) 0).1 ≠ NonceResult.Accepted := by
    norm_num [validate_nonce, ledgerLookup, SecurityEngine.init]
    simp
  have hacc : (validate_nonce SecurityEngine.init 42 0 0).1 = NonceResult.Accepted := by
    norm_num [validate_nonce, ledgerLookup, pruneLedger, List.filter, SecurityEngine.init]
  exact ⟨⟨hexp, (validate_nonce_order.1 SecurityEngine.init 43 (-25) 0).2.2.2.1 hexp⟩,
    ⟨hacc, (validate_nonce_order.1 SecurityEngine.init 42 0 0).2.2.2.2 hacc⟩⟩

/-! ## C9: pruning happens only on the accepting path -/

/-- C9 counterexample: with ttl 20 and an entry (nonce 1, issued at t=0)
in the ledger, a `validate_nonce` call at now=30 that returns
`RejectedReplay` leaves the ledger unchanged: the entry for nonce 1, aged
30 > 20, is NOT pruned, contradicting the claim that entries older than
`nonce_ttl` are pruned on every call regardless of outcome. -/
theorem prune_regardless_counterexample :
    (validate_nonce { SecurityEngine.init with ledger := [(1, 0)] } 1 0 30).1 =
      NonceResult.RejectedReplay ∧
    (validate_nonce { SecurityEngine.init with ledger := [(1, 0)] } 1 0 30).2.ledger =
      [(1, 0)] ∧
    (30 : ℚ) - 0 >
      (validate_nonce { SecurityEngine.init with ledger := [(1, 0)] } 1 0 30).2.nonce_ttl := by
  norm_num [validate_nonce, ledgerLookup, SecurityEngine.init]

/-- C9 amended: the lazy prune of entries older than `nonce_ttl` runs only
on calls that return `Accepted`; on those calls every surviving entry is
within TTL of `now`, while a call that rejects (replay or expired) leaves
the engine, and in particular the nonce ledger, completely unchanged. -/
theorem prune_only_on_accept (e : SecurityEngine) (n : ℕ) (ts now : ℚ) :
    ((validate_nonce e n ts now).1 = NonceResult.Accepted →
      ∀ p ∈ (validate_nonce e n ts now).2.ledger, now - p.2 ≤ e.nonce_ttl) ∧
    ((validate_nonce e n ts now).1 ≠ NonceResult.Accepted →
      (validate_nonce e n ts now).2 = e) := by
  unfold validate_nonce
  split_ifs with h1 h2
  · simp
  · simp
  · simp only [ne_eq, not_true_eq_false, false_implies, and_true, true_implies]
    intro p hp
    have := List.of_mem_filter hp
    simpa using this

/-- Witness for the hypotheses of `prune_only_on_accept`: the accepting
part at a concrete accepted call, the unchanged part at a concrete
replay-rejected call. -/
theorem prune_only_on_accept_witness :
    ((validate_nonce SecurityEngine.init 42 0 0).1 = NonceResult.Accepted ∧
      ∀ p ∈ (validate_nonce SecurityEngine.init 42 0 0).2.ledger,
        (0 : ℚ) - p.2 ≤ SecurityEngine.init.nonce_ttl) ∧
    ((validate_nonce { SecurityEngine.init with ledger := [(1, 0)] } 1 0 30).1 ≠
        NonceResult.Accepted ∧
      (validate_nonce { SecurityEngine.init with ledger := [(1, 0)] } 1 0 30).2 =
        { SecurityEngine.init with ledger := [(1, 0)] }) := by
  have hacc : (validate_nonce SecurityEngine.init 42 0 0).1 = NonceResult.Accepted := by
    norm_num [validate_nonce, ledgerLookup, pruneLedger, List.filter, SecurityEngine.init]
  have hrej : (validate_nonce { SecurityEngine.init with ledger := [(1, 0)] } 1 0 30).1 ≠
      NonceResult.Accepted := by
    norm_num [validate_nonce, ledgerLookup, SecurityEngine.init]
    simp
  exact ⟨⟨hacc, (prune_only_on_accept SecurityEngine.init 42 0 0).1 hacc⟩,
    ⟨hrej, (prune_only_on_accept { SecurityEngine.init with ledger := [(1, 0)] } 1 0 30).2 hrej⟩⟩

/-! ## C2: replay protection across call sequences -/

theorem ledgerLookup_eq_none (n : ℕ) (l : List (ℕ × ℚ)) :
    ledgerLookup n l = none ↔ n ∉ l.map Prod.fst := by
  induction l with
  | nil => simp [ledgerLookup]
  | cons q rest ih =>
    cases q with
    | mk m t =>
      by_cases h : n = m
      · simp [ledgerLookup, h]
      · simp [ledgerLookup, h, ih]

theorem mem_keys_of_mem_keys_filter {n : ℕ} {p : ℕ × ℚ → Bool} {l : List (ℕ × ℚ)}
    (h : n ∈ (l.filter p).map Prod.fst) : n ∈ l.map Prod.fst := by
  rcases List.mem_map.mp h with ⟨pr, hpr, rfl⟩
  exact List.mem_map.mpr ⟨pr, List.mem_of_mem_filter hpr, rfl⟩

theorem nodupKeys_filter {p : ℕ × ℚ → Bool} {l : List (ℕ × ℚ)}
    (h : (l.map Prod.fst).Nodup) : ((l.filter p).map Prod.fst).Nodup :=
  List.Nodup.sublist (List.Sublist.map Prod.fst (List.filter_sublist l)) h

theorem ledgerLookup_filter (n : ℕ) (v : ℚ) (p : ℕ × ℚ → Bool) (l : List (ℕ × ℚ))
    (hnd : (l.map Prod.fst).Nodup) (hl : ledgerLookup n l = some v) :
    ledgerLookup n (l.filter p) = if p (n, v) = true then some v else none := by
  induction l with
  | nil => simp [ledgerLookup] at hl
  | cons q rest ih =>
    cases q with
    | mk m t =>
      simp only [List.map_cons, List.nodup_cons] at hnd
      by_cases h : n = m
      · subst h
        simp only [ledgerLookup, if_pos rfl] at hl
        injection hl with hv
        subst hv
        rcases hp : p (n, t) with _ | _
        · have hnone : ledgerLookup n (List.filter p rest) = none := by
            rw [ledgerLookup_eq_none]
            intro hmem
            exact hnd.1 (mem_keys_of_mem_keys_filter hmem)
          simp [List.filter_cons, hp, hnone]
        · simp [List.filter_cons, hp, ledgerLookup]
      · simp only [ledgerLookup, if_neg h] at hl
        have hrest := ih hnd.2 hl
        rcases hp : p (m, t) with _ | _
        · simp [List.filter_cons, hp, hrest]
        · simp [List.filter_cons, hp, ledgerLookup, h, hrest]

theorem validate_nonce_nodupKeys (e : SecurityEngine) (n : ℕ) (ts now : ℚ)
    (h : (e.ledger.map Prod.fst).Nodup) :
    (((validate_nonce e n ts now).2.ledger).map Prod.fst).Nodup := by
  unfold validate_nonce
  split_ifs with h1 h2
  · exact h
  · exact h
  · apply nodupKeys_filter
    simp only [List.map_cons, List.nodup_cons]
    refine ⟨?_, h⟩
    have hn : ledgerLookup n e.ledger = none := Option.not_isSome_iff_eq_none.mp h1
    exact (ledgerLookup_eq_none n e.ledger).mp hn

theorem validate_nonce_ttl (e : SecurityEngine) (n : ℕ) (ts now : ℚ) :
    (validate_nonce e n ts now).2.nonce_ttl = e.nonce_ttl := by
  unfold validate_nonce
  split_ifs <;> rfl

theorem validate_nonce_accept_inv (e : SecurityEngine) (n : ℕ) (ts now : ℚ)
    (h : (validate_nonce e n ts now).1 = NonceResult.Accepted) :
    ledgerLookup n e.ledger = none ∧ now - ts ≤ e.nonce_ttl := by
  unfold validate_nonce at h
  split_ifs at h with ha hb
  exact ⟨Option.not_isSome_iff_eq_none.mp ha, not_lt.mp hb⟩

theorem spent_step (e : SecurityEngine) (nonce m : ℕ) (ts ts2 t now : ℚ)
    (hnd : (e.ledger.map Prod.fst).Nodup)
    (hinv : Spent nonce ts e.nonce_ttl t e.ledger)
    (ht : t ≤ now) :
    Spent nonce ts e.nonce_ttl now (validate_nonce e m ts2 now).2.ledger := by
  rcases hinv with ⟨v, hv, htsv⟩ | hexp
  · unfold validate_nonce
    split_ifs with h1 h2
    · exact Or.inl ⟨v, hv, htsv⟩
    · exact Or.inl ⟨v, hv, htsv⟩
    · have hm : ledgerLookup m e.ledger = none := Option.not_isSome_iff_eq_none.mp h1
      have hne : nonce ≠ m := by
        rintro rfl
        rw [hm] at hv
        cases hv
      have hstep :
          ledgerLookup nonce (pruneLedger now e.nonce_ttl ((m, ts2) :: e.ledger)) =
            ledgerLookup nonce (e.ledger.filter (fun p => decide (now - p.2 ≤ e.nonce_ttl))) := by
        unfold pruneLedger
        rcases hp : (fun p : ℕ × ℚ => decide (now - p.2 ≤ e.nonce_ttl)) (m, ts2) with _ | _
        · simp only [List.filter_cons, hp, Bool.false_eq_true, if_neg (fun hc => hc)]
        · simp only [List.filter_cons, hp, if_pos rfl, ledgerLookup, if_neg hne]
      have hlf := ledgerLookup_filter nonce v
        (fun p : ℕ × ℚ => decide (now - p.2 ≤ e.nonce_ttl)) e.ledger hnd hv
      by_cases hfresh : now - v ≤ e.nonce_ttl
      · simp only [Spent]
        left
        refine ⟨v, ?_, htsv⟩
        rw [hstep, hlf]
        simp [hfresh]
      · simp only [Spent]
        right
        have : e.nonce_ttl < now - v := not_le.mp hfresh
        linarith
  · have : e.nonce_ttl < now - ts := by linarith
    unfold validate_nonce
    split_ifs <;> exact Or.inr this

theorem spent_run (calls : List (ℕ × ℚ × ℚ)) (e : SecurityEngine) (nonce : ℕ) (ts t : ℚ)
    (hnd : (e.ledger.map Prod.fst).Nodup)
    (hinv : Spent nonce ts e.nonce_ttl t e.ledger)
    (hch : chrono t calls) :
    Spent nonce ts e.nonce_ttl (lastTime t calls) (runValidate e calls).ledger ∧
    (((runValidate e calls).ledger).map Prod.fst).Nodup ∧
    (runValidate e calls).nonce_ttl = e.nonce_ttl := by
  induction calls generalizing e t with
  | nil => exact ⟨hinv, hnd, rfl⟩
  | cons c rest ih =>
    obtain ⟨h1, h2⟩ := hch
    have hstep := spent_step e nonce c.1 ts c.2.1 t c.2.2 hnd hinv h1
    have hnd2 := validate_nonce_nodupKeys e c.1 c.2.1 c.2.2 hnd
    have httl := validate_nonce_ttl e c.1 c.2.1 c.2.2
    rw [← httl] at hstep
    have hres := ih (validate_nonce e c.1 c.2.1 c.2.2).2 c.2.2 hnd2 hstep h2
    rw [httl] at hres
    simpa [runValidate, lastTime] using hres

/-- C2 counterexample: the same nonce VALUE can be accepted twice. With
ttl 20, nonce 42 issued at t=0 is accepted at t=0; at t=25 an unrelated
accepted call prunes the aged entry for 42; immediately afterwards
nonce 42 with a fresh issued-at of t=25 is accepted AGAIN at t=25 — the
call times 0, 25, 25 are nondecreasing, so lazy pruning does re-enable
reuse of a consumed nonce value. -/
theorem nonce_value_reuse_counterexample :
    (validate_nonce SecurityEngine.init 42 0 0).1 = NonceResult.Accepted ∧
    (validate_nonce (validate_nonce SecurityEngine.init 42 0 0).2 7 25 25).1 =
      NonceResult.Accepted ∧
    (validate_nonce
        (validate_nonce (validate_nonce SecurityEngine.init 42 0 0).2 7 25 25).2
        42 25 25).1 = NonceResult.Accepted := by
  norm_num [validate_nonce, ledgerLookup, pruneLedger, List.filter, SecurityEngine.init]

/-- C2 amended: a consumed (nonce, issued_at) pair is never accepted
again. If `validate_nonce` accepts `(nonce, ts)` at time `now0`, then
after any chronological sequence of further `validate_nonce` calls (times
nondecreasing from `now0`), a later call with the same pair `(nonce, ts)`
at any time `now1` not before the last call is rejected: as a replay
while the entry is live, and as expired once the entry has been pruned
(pruning only happens after the pair has outlived its TTL). Only a reuse
of the bare nonce value with a FRESH issued-at can be accepted again
after pruning (see `nonce_value_reuse_counterexample`). -/
theorem nonce_pair_never_reaccepted (e : SecurityEngine) (nonce : ℕ) (ts now0 now1 : ℚ)
    (calls : List (ℕ × ℚ × ℚ))
    (hnd : (e.ledger.map Prod.fst).Nodup)
    (hacc : (validate_nonce e nonce ts now0).1 = NonceResult.Accepted)
    (hch : chrono now0 calls)
    (hlast : lastTime now0 calls ≤ now1) :
    (validate_nonce (runValidate (validate_nonce e nonce ts now0).2 calls) nonce ts now1).1 ≠
      NonceResult.Accepted := by
  have hcond := validate_nonce_accept_inv e nonce ts now0 hacc
  have hfresh : now0 - ts ≤ e.nonce_ttl := hcond.2
  have hledger1 : (validate_nonce e nonce ts now0).2.ledger =
      pruneLedger now0 e.nonce_ttl ((nonce, ts) :: e.ledger) := by
    unfold validate_nonce
    rw [if_neg (by simp [hcond.1]), if_neg (not_lt.mpr hcond.2)]
  have hinv1 : Spent nonce ts e.nonce_ttl now0 (validate_nonce e nonce ts now0).2.ledger := by
    simp only [Spent]
    left
    refine ⟨ts, ?_, le_refl ts⟩
    rw [hledger1]
    exact ledgerLookup_insert_pruned nonce ts now0 e.nonce_ttl e.ledger hfresh
  have hnd1 := validate_nonce_nodupKeys e nonce ts now0 hnd
  have httl1 := validate_nonce_ttl e nonce ts now0
  rw [← httl1] at hinv1
  have hrun := spent_run calls (validate_nonce e nonce ts now0).2 nonce ts now0 hnd1 hinv1 hch
  rw [httl1] at hrun
  obtain ⟨hspent, _, httlf⟩ := hrun
  intro habs
  have hcondf := validate_nonce_accept_inv
    (runValidate (validate_nonce e nonce ts now0).2 calls) nonce ts now1 habs
  rcases hspent with ⟨v, hv, _⟩ | hexp
  · rw [hcondf.1] at hv
    cases hv
  · rw [httlf] at hcondf
    linarith [hcondf.2]

/-- Witness for `nonce_pair_never_reaccepted` at a concrete run: nonce 42
issued at t=0 accepted at t=0, one further call at t=3, re-validation of
the same pair at t=5 is not accepted. -/
theorem nonce_pair_never_reaccepted_witness :
    ((SecurityEngine.init.ledger.map Prod.fst).Nodup ∧
      (validate_nonce SecurityEngine.init 42 0 0).1 = NonceResult.Accepted ∧
      chrono 0 [(7, 3, 3)] ∧
      lastTime 0 [(7, 3, 3)] ≤ 5) ∧
    (validate_nonce (runValidate (validate_nonce SecurityEngine.init 42 0 0).2 [(7, 3, 3)])
      42 0 5).1 ≠ NonceResult.Accepted := by
  have h1 : (SecurityEngine.init.ledger.map Prod.fst).Nodup := by
    simp [SecurityEngine.init]
  have h2 : (validate_nonce SecurityEngine.init 42 0 0).1 = NonceResult.Accepted := by
    norm_num [validate_nonce, ledgerLookup, pruneLedger, List.filter, SecurityEngine.init]
  have h3 : chrono 0 [((7 : ℕ), (3 : ℚ), (3 : ℚ))] := by
    simp only [chrono]
    norm_num
  have h4 : lastTime 0 [((7 : ℕ), (3 : ℚ), (3 : ℚ))] ≤ 5 := by
    simp only [lastTime]
    norm_num
  exact ⟨⟨h1, h2, h3, h4⟩,
    nonce_pair_never_reaccepted SecurityEngine.init 42 0 0 5 [(7, 3, 3)] h1 h2 h3 h4⟩

/-! ## C4: quorum counts distinct officers with fresh approvals -/

theorem keys_filter_nodup {α β : Type} {p : α × β → Bool} {l : List (α × β)}
    (h : (l.map Prod.fst).Nodup) : ((l.filter p).map Prod.fst).Nodup :=
  List.Nodup.sublist (List.Sublist.map Prod.fst (List.filter_sublist l)) h

theorem add_approval_nodup (e : SecurityEngine) (officer : String) (now : ℚ)
    (h : (e.approvals.map Prod.fst).Nodup) :
    (((add_approval e officer now).approvals).map Prod.fst).Nodup := by
  simp only [add_approval, List.map_cons, List.nodup_cons]
  constructor
  · intro hmem
    rcases List.mem_map.mp hmem with ⟨pr, hpr, hfst⟩
    have hne := List.of_mem_filter hpr
    rw [decide_eq_true_eq] at hne
    exact hne hfst
  · exact keys_filter_nodup h

theorem applyApprovals_nodup (e : SecurityEngine) (seq : List (String × ℚ))
    (h : (e.approvals.map Prod.fst).Nodup) :
    (((applyApprovals e seq).approvals).map Prod.fst).Nodup := by
  induction seq generalizing e with
  | nil => exact h
  | cons p rest ih => exact ih (add_approval e p.1 p.2) (add_approval_nodup e p.1 p.2 h)

theorem approvals_ok_iff (e : SecurityEngine) (action : String) (now : ℚ)
    (hnd : (e.approvals.map Prod.fst).Nodup) :
    ((approvals_ok e action now).1 = true ↔
      (if action = "engage" then e.required_engage else e.required_kill) ≤
        ((e.approvals.filter (fun p => decide (now - p.2 ≤ e.approvals_ttl))).map
          Prod.fst).toFinset.card) := by
  have hkeys : ((e.approvals.filter
      (fun p => decide (now - p.2 ≤ e.approvals_ttl))).map Prod.fst).Nodup :=
    keys_filter_nodup hnd
  rw [List.toFinset_card_of_nodup hkeys, List.length_map]
  simp only [approvals_ok, clear_old_approvals, decide_eq_true_eq]

/-- C4: for every sequence of `add_approval` calls and every time `now`,
`approvals_ok` returns true exactly when the number of DISTINCT officers
whose recorded approval satisfies `now - granted_at ≤ approvals_ttl`
reaches the action's requirement; the same officer approving three times
never meets the 2-of-3 quorum alone, and with ttl 12, approvals by A at
t=0 and B at t=5 meet the quorum at t=10 but not at t=13. -/
theorem quorum_distinct_fresh_iff :
    (∀ (seq : List (String × ℚ)) (action : String) (now : ℚ),
      ((approvals_ok (applyApprovals SecurityEngine.init seq) action now).1 = true ↔
        (if action = "engage" then (applyApprovals SecurityEngine.init seq).required_engage
          else (applyApprovals SecurityEngine.init seq).required_kill) ≤
          (((applyApprovals SecurityEngine.init seq).approvals.filter
              (fun p => decide (now - p.2 ≤
                (applyApprovals SecurityEngine.init seq).approvals_ttl))).map
            Prod.fst).toFinset.card)) ∧
    (approvals_ok (applyApprovals SecurityEngine.init [("A", 0), ("A", 3), ("A", 6)])
      "engage" 7).1 = false ∧
    (approvals_ok (applyApprovals SecurityEngine.init [("A", 0), ("B", 5)])
      "engage" 10).1 = true ∧
    (approvals_ok (applyApprovals SecurityEngine.init [("A", 0), ("B", 5)])
      "engage" 13).1 = false := by
  refine ⟨?_, ?_, ?_, ?_⟩
  · intro seq action now
    exact approvals_ok_iff (applyApprovals SecurityEngine.init seq) action now
      (applyApprovals_nodup SecurityEngine.init seq (by simp [SecurityEngine.init]))
  · norm_num [applyApprovals, add_approval, approvals_ok, clear_old_approvals,
      List.filter, SecurityEngine.init]
  · norm_num [applyApprovals, add_approval, approvals_ok, clear_old_approvals,
      List.filter, SecurityEngine.init]
  · norm_num [applyApprovals, add_approval, approvals_ok, clear_old_approvals,
      List.filter, SecurityEngine.init]

/-! ## C3: engagement workflow gate order -/

theorem validate_nonce_incidentLog (e : SecurityEngine) (n : ℕ) (ts now : ℚ) :
    (validate_nonce e n ts now).2.incidentLog = e.incidentLog := by
  unfold validate_nonce
  split_ifs <;> rfl

theorem validate_nonce_score (e : SecurityEngine) (n : ℕ) (ts now : ℚ) :
    (validate_nonce e n ts now).2.anomaly_score = e.anomaly_score := by
  unfold validate_nonce
  split_ifs <;> rfl

/-- C3: the three gates of the engagement workflow run in the order
quorum, then rate limit, then nonce validation, short-circuiting on the
first failure. A bare quorum failure raises no incident and leaves the
rate window and the nonce ledger untouched; a rate-limit failure raises
the `rate_limit` incident and leaves the nonce ledger untouched; a nonce
failure raises the `replay_fail` incident; full success raises none. -/
theorem engagement_gate_order (e : SecurityEngine) (now : ℚ) (nonce : ℕ) :
    ((approvals_ok e "engage" now).1 = false →
      start_engagement_workflow e now nonce = (false, (approvals_ok e "engage" now).2) ∧
      (start_engagement_workflow e now nonce).2.cmd_times = e.cmd_times ∧
      (start_engagement_workflow e now nonce).2.ledger = e.ledger ∧
      (start_engagement_workflow e now nonce).2.incidentLog = e.incidentLog) ∧
    ((approvals_ok e "engage" now).1 = true →
      (check_rate_limit (approvals_ok e "engage" now).2 now).1 = false →
      (start_engagement_workflow e now nonce).1 = false ∧
      (start_engagement_workflow e now nonce).2.incidentLog = "rate_limit" :: e.incidentLog ∧
      (start_engagement_workflow e now nonce).2.ledger = e.ledger) ∧
    ((approvals_ok e "engage" now).1 = true →
      (check_rate_limit (approvals_ok e "engage" now).2 now).1 = true →
      (validate_nonce (check_rate_limit (approvals_ok e "engage" now).2 now).2
        nonce now now).1 ≠ NonceResult.Accepted →
      (start_engagement_workflow e now nonce).1 = false ∧
      (start_engagement_workflow e now nonce).2.incidentLog = "replay_fail" :: e.incidentLog) ∧
    ((approvals_ok e "engage" now).1 = true →
      (check_rate_limit (approvals_ok e "engage" now).2 now).1 = true →
      (validate_nonce (check_rate_limit (approvals_ok e "engage" now).2 now).2
        nonce now now).1 = NonceResult.Accepted →
      (start_engagement_workflow e now nonce).1 = true ∧
      (start_engagement_workflow e now nonce).2.incidentLog = e.incidentLog) := by
  refine ⟨?_, ?_, ?_, ?_⟩
  · intro h1
    have hmain : start_engagement_workflow e now nonce =
        (false, (approvals_ok e "engage" now).2) := by
      simp [start_engagement_workflow, start_engagement_workflow_at, h1]
    exact ⟨hmain, by rw [hmain]; rfl, by rw [hmain]; rfl, by rw [hmain]; rfl⟩
  · intro h1 h2
    have hmain : start_engagement_workflow e now nonce =
        (false, incident (check_rate_limit (approvals_ok e "engage" now).2 now).2
          "rate_limit") := by
      simp [start_engagement_workflow, start_engagement_workflow_at, h1, h2]
    exact ⟨by rw [hmain], by rw [hmain]; rfl, by rw [hmain]; rfl⟩
  · intro h1 h2 h3
    have hmain : start_engagement_workflow e now nonce =
        (false, incident (validate_nonce (check_rate_limit
          (approvals_ok e "engage" now).2 now).2 nonce now now).2 "replay_fail") := by
      simp [start_engagement_workflow, start_engagement_workflow_at, h1, h2, h3]
    refine ⟨by rw [hmain], ?_⟩
    rw [hmain]
    show "replay_fail" :: (validate_nonce _ nonce now now).2.incidentLog =
      "replay_fail" :: e.incidentLog
    rw [validate_nonce_incidentLog]
    rfl
  · intro h1 h2 h3
    have hmain : start_engagement_workflow e now nonce =
        (true, (validate_nonce (check_rate_limit
          (approvals_ok e "engage" now).2 now).2 nonce now now).2) := by
      simp [start_engagement_workflow, start_engagement_workflow_at, h1, h2, h3]
    refine ⟨by rw [hmain], ?_⟩
    rw [hmain]
    show (validate_nonce _ nonce now now).2.incidentLog = e.incidentLog
    rw [validate_nonce_incidentLog]
    rfl

/-- Witness for the hypotheses of `engagement_gate_order`, one concrete
engine per gate outcome: empty approvals (quorum denial), a full rate
window (rate denial), a replayed nonce (nonce denial), and a clean state
(authorization). -/
theorem engagement_gate_order_witness :
    ((approvals_ok SecurityEngine.init "engage" 0).1 = false ∧
      (start_engagement_workflow SecurityEngine.init 0 1).2.incidentLog =
        SecurityEngine.init.incidentLog) ∧
    ((approvals_ok engineABfullRate "engage" 0).1 = true ∧
      (check_rate_limit (approvals_ok engineABfullRate "engage" 0).2 0).1 = false ∧
      (start_engagement_workflow engineABfullRate 0 1).2.incidentLog = ["rate_limit"]) ∧
    ((validate_nonce (check_rate_limit (approvals_ok engineABreplay "engage" 0).2 0).2
        5 0 0).1 ≠ NonceResult.Accepted ∧
      (start_engagement_workflow engineABreplay 0 5).2.incidentLog = ["replay_fail"]) ∧
    ((validate_nonce (check_rate_limit (approvals_ok engineAB "engage" 0).2 0).2
        5 0 0).1 = NonceResult.Accepted ∧
      (start_engagement_workflow engineAB 0 5).1 = true) := by
  have e1 : (approvals_ok SecurityEngine.init "engage" 0).1 = false := by
    norm_num [approvals_ok, clear_old_approvals, List.filter, SecurityEngine.init]
  have e2q : (approvals_ok engineABfullRate "engage" 0).1 = true := by
    norm_num [approvals_ok, clear_old_approvals, List.filter, SecurityEngine.init,
      engineABfullRate]
  have e2r : (check_rate_limit (approvals_ok engineABfullRate "engage" 0).2 0).1 = false := by
    norm_num [check_rate_limit, approvals_ok, clear_old_approvals, List.filter,
      List.dropWhile, SecurityEngine.init, engineABfullRate]
  have e3q : (approvals_ok engineABreplay "engage" 0).1 = true := by
    norm_num [approvals_ok, clear_old_approvals, List.filter, SecurityEngine.init,
      engineABreplay]
  have e3r : (check_rate_limit (approvals_ok engineABreplay "engage" 0).2 0).1 = true := by
    norm_num [check_rate_limit, approvals_ok, clear_old_approvals, List.filter,
      List.dropWhile, SecurityEngine.init, engineABreplay]
  have e3v : (validate_nonce (check_rate_limit (approvals_ok engineABreplay "engage" 0).2 0).2
      5 0 0).1 ≠ NonceResult.Accepted := by
    norm_num [validate_nonce, ledgerLookup, check_rate_limit, approvals_ok,
      clear_old_approvals, List.filter, List.dropWhile, SecurityEngine.init, engineABreplay]
    simp
  have e4q : (approvals_ok engineAB "engage" 0).1 = true := by
    norm_num [approvals_ok, clear_old_approvals, List.filter, SecurityEngine.init, engineAB]
  have e4r : (check_rate_limit (approvals_ok engineAB "engage" 0).2 0).1 = true := by
    norm_num [check_rate_limit, approvals_ok, clear_old_approvals, List.filter,
      List.dropWhile, SecurityEngine.init, engineAB]
  have e4v : (validate_nonce (check_rate_limit (approvals_ok engineAB "engage" 0).2 0).2
      5 0 0).1 = NonceResult.Accepted := by
    norm_num [validate_nonce, ledgerLookup, pruneLedger, check_rate_limit, approvals_ok,
      clear_old_approvals, List.filter, List.dropWhile, SecurityEngine.init, engineAB]
  refine ⟨⟨e1, ?_⟩, ⟨e2q, e2r, ?_⟩, ⟨e3v, ?_⟩, ⟨e4v, ?_⟩⟩
  · exact ((engagement_gate_order SecurityEngine.init 0 1).1 e1).2.2.2
  · exact (((engagement_gate_order engineABfullRate 0 1).2.1 e2q e2r).2.1).trans
      (by simp [SecurityEngine.init, engineABfullRate])
  · exact (((engagement_gate_order engineABreplay 0 5).2.2.1 e3q e3r e3v).2).trans
      (by simp [SecurityEngine.init, engineABreplay])
  · exact ((engagement_gate_order engineAB 0 5).2.2.2 e4q e4r e4v).1

/-! ## C10: expired and replayed nonces raise the same incident kind -/

/-- C10: once the quorum and rate gates pass, any nonce-validation failure
in the engagement workflow — `RejectedReplay` or `RejectedExpired` alike —
raises the single incident kind "replay_fail" with severity weight 0.7:
the resulting state is identical in shape for both failure reasons, the
anomaly score rises by 0.7 (clamped at 3.0), and no expiry-specific,
lower-weight incident kind exists. The workflow is stated through
`start_engagement_workflow_at`, which generalises the issued-at timestamp
the source fixes to `now`; an expired nonce is reachable for `ts` with
`now - ts > nonce_ttl`. -/
theorem expired_nonce_same_incident (e : SecurityEngine) (now ts : ℚ) (nonce : ℕ)
    (hq : (approvals_ok e "engage" now).1 = true)
    (hr : (check_rate_limit (approvals_ok e "engage" now).2 now).1 = true)
    (hv : (validate_nonce (check_rate_limit (approvals_ok e "engage" now).2 now).2
        nonce ts now).1 = NonceResult.RejectedReplay ∨
      (validate_nonce (check_rate_limit (approvals_ok e "engage" now).2 now).2
        nonce ts now).1 = NonceResult.RejectedExpired) :
    start_engagement_workflow_at e now ts nonce =
      (false, incident (validate_nonce (check_rate_limit
        (approvals_ok e "engage" now).2 now).2 nonce ts now).2 "replay_fail") ∧
    (start_engagement_workflow_at e now ts nonce).2.incidentLog =
      "replay_fail" :: e.incidentLog ∧
    (start_engagement_workflow_at e now ts nonce).2.anomaly_score =
      min 3 (e.anomaly_score + severity "replay_fail") ∧
    severity "replay_fail" = 0.7 := by
  have hne : (validate_nonce (check_rate_limit (approvals_ok e "engage" now).2 now).2
      nonce ts now).1 ≠ NonceResult.Accepted := by
    rcases hv with h | h <;> rw [h] <;> simp
  have hmain : start_engagement_workflow_at e now ts nonce =
      (false, incident (validate_nonce (check_rate_limit
        (approvals_ok e "engage" now).2 now).2 nonce ts now).2 "replay_fail") := by
    simp [start_engagement_workflow_at, hq, hr, hne]
  refine ⟨hmain, ?_, ?_, by simp [severity]⟩
  · rw [hmain]
    show "replay_fail" :: (validate_nonce _ nonce ts now).2.incidentLog =
      "replay_fail" :: e.incidentLog
    rw [validate_nonce_incidentLog]
    rfl
  · rw [hmain]
    show min 3 ((validate_nonce _ nonce ts now).2.anomaly_score + severity "replay_fail") =
      min 3 (e.anomaly_score + severity "replay_fail")
    rw [validate_nonce_score]
    rfl

/-- Witness for the hypotheses of `expired_nonce_same_incident` at an
EXPIRED nonce: quorum and rate pass, and nonce 5 issued at t=-30 is
validated at t=1 (age 31 > ttl 20), so the failure reason is expiry, yet
the incident raised is "replay_fail". -/
theorem expired_nonce_same_incident_witness :
    ((approvals_ok engineAB "engage" 1).1 = true ∧
      (check_rate_limit (approvals_ok engineAB "engage" 1).2 1).1 = true ∧
      (validate_nonce (check_rate_limit (approvals_ok engineAB "engage" 1).2 1).2
        5 (-30) 1).1 = NonceResult.RejectedExpired) ∧
    (start_engagement_workflow_at engineAB 1 (-30) 5).2.incidentLog =
      "replay_fail" :: engineAB.incidentLog := by
  have hq : (approvals_ok engineAB "engage" 1).1 = true := by
    norm_num [approvals_ok, clear_old_approvals, List.filter, SecurityEngine.init, engineAB]
  have hr : (check_rate_limit (approvals_ok engineAB "engage" 1).2 1).1 = true := by
    norm_num [check_rate_limit, approvals_ok, clear_old_approvals, List.filter,
      List.dropWhile, SecurityEngine.init, engineAB]
  have hv : (validate_nonce (check_rate_limit (approvals_ok engineAB "engage" 1).2 1).2
      5 (-30) 1).1 = NonceResult.RejectedExpired := by
    norm_num [validate_nonce, ledgerLookup, check_rate_limit, approvals_ok,
      clear_old_approvals, List.filter, List.dropWhile, SecurityEngine.init, engineAB]
  exact ⟨⟨hq, hr, hv⟩,
    (expired_nonce_same_incident engineAB 1 (-30) 5 hq hr (Or.inr hv)).2.1⟩

/-! ## C1: kill-switch is two-phase and single-use -/

theorem clear_old_idem (e : SecurityEngine) (now : ℚ) :
    clear_old_approvals (clear_old_approvals e now) now = clear_old_approvals e now := by
  simp only [clear_old_approvals, List.filter_filter, Bool.and_self]

theorem approvals_ok_stable (e : SecurityEngine) (action : String) (now : ℚ) :
    approvals_ok (approvals_ok e action now).2 action now = approvals_ok e action now := by
  simp only [approvals_ok]
  rw [clear_old_idem]

/-- C1: `execute_kill_switch` without a prior arm returns `DeniedNotArmed`
and leaves the armed flag false and the engine untouched; `arm_kill_switch`
sets the flag; once armed and with the kill quorum met, execution returns
`Executed`, dispatches the scoped action and always resets the flag to
false, so an immediately following execution — with quorum still
satisfied — returns `DeniedNotArmed`; an armed execution failing the
quorum returns `DeniedQuorum` and leaves the flag armed. -/
theorem kill_switch_two_phase (e : SecurityEngine) (kind : KillScope) (now : ℚ) :
    (∀ a : Bool, arm_kill_switch a = true) ∧
    execute_kill_switch e false kind now =
      { result := KillResult.DeniedNotArmed, armed := false, engine := e,
        dispatched := none } ∧
    ((approvals_ok e "kill" now).1 = true →
      (execute_kill_switch e true kind now).result = KillResult.Executed ∧
      (execute_kill_switch e true kind now).dispatched = some kind ∧
      (execute_kill_switch e true kind now).armed = false ∧
      (approvals_ok (execute_kill_switch e true kind now).engine "kill" now).1 = true ∧
      (execute_kill_switch (execute_kill_switch e true kind now).engine
        (execute_kill_switch e true kind now).armed kind now).result =
          KillResult.DeniedNotArmed) ∧
    ((approvals_ok e "kill" now).1 = false →
      (execute_kill_switch e true kind now).result = KillResult.DeniedQuorum ∧
      (execute_kill_switch e true kind now).armed = true) := by
  refine ⟨fun a => rfl, rfl, ?_, ?_⟩
  · intro hq
    have hexec : execute_kill_switch e true kind now =
        { result := KillResult.Executed, armed := false,
          engine := (approvals_ok e "kill" now).2, dispatched := some kind } := by
      simp [execute_kill_switch, hq]
    refine ⟨by rw [hexec], by rw [hexec], by rw [hexec], ?_, by rw [hexec]; rfl⟩
    rw [hexec]
    show (approvals_ok (approvals_ok e "kill" now).2 "kill" now).1 = true
    rw [approvals_ok_stable]
    exact hq
  · intro hq
    have hexec : execute_kill_switch e true kind now =
        { result := KillResult.DeniedQuorum, armed := true,
          engine := (approvals_ok e "kill" now).2, dispatched := none } := by
      simp [execute_kill_switch, hq]
    exact ⟨by rw [hexec], by rw [hexec]⟩

/-- Witness for the quorum hypotheses of `kill_switch_two_phase`: with
approvals by A at t=0 and B at t=5 and ttl 12, the kill quorum holds at
t=10, an armed execution fires and resets the flag, and the immediate
re-execution is denied; with the empty initial engine the quorum fails and
an armed execution leaves the flag armed. -/
theorem kill_switch_two_phase_witness :
    ((approvals_ok engineAB5 "kill" 10).1 = true ∧
      (execute_kill_switch engineAB5 true KillScope.unit 10).result = KillResult.Executed ∧
      (execute_kill_switch engineAB5 true KillScope.unit 10).armed = false ∧
      (execute_kill_switch (execute_kill_switch engineAB5 true KillScope.unit 10).engine
        (execute_kill_switch engineAB5 true KillScope.unit 10).armed KillScope.unit 10).result =
          KillResult.DeniedNotArmed) ∧
    ((approvals_ok SecurityEngine.init "kill" 10).1 = false ∧
      (execute_kill_switch SecurityEngine.init true KillScope.unit 10).armed = true) := by
  have hq : (approvals_ok engineAB5 "kill" 10).1 = true := by
    norm_num [approvals_ok, clear_old_approvals, List.filter, SecurityEngine.init, engineAB5]
  have hnq : (approvals_ok SecurityEngine.init "kill" 10).1 = false := by
    norm_num [approvals_ok, clear_old_approvals, List.filter, SecurityEngine.init]
  have h1 := (kill_switch_two_phase engineAB5 KillScope.unit 10).2.2.1 hq
  have h2 := (kill_switch_two_phase SecurityEngine.init KillScope.unit 10).2.2.2 hnq
  exact ⟨⟨hq, h1.1, h1.2.2.1, h1.2.2.2.2⟩, ⟨hnq, h2.2⟩⟩

/-! ## C8: the audit ledger hash chain -/

theorem strAppend_cancel_right {a b s : String} (h : a ++ s = b ++ s) : a = b := by
  have hd : a.data ++ s.data = b.data ++ s.data := by
    have := congrArg String.data h
    simpa [String.data_append] using this
  exact String.ext (List.append_cancel_right hd)

theorem strAppend_cancel_left {s a b : String} (h : s ++ a = s ++ b) : a = b := by
  have hd : s.data ++ a.data = s.data ++ b.data := by
    have := congrArg String.data h
    simpa [String.data_append] using this
  exact String.ext (List.append_cancel_left hd)

theorem storedPairs_append (H : String → String) (L : BlackBoxLedger) (ts text : String) :
    storedPairs (L.append H ts text) = storedPairs L ++ [(ts, text)] := by
  simp [storedPairs, BlackBoxLedger.append]

theorem storedHashes_append (H : String → String) (L : BlackBoxLedger) (ts text : String) :
    storedHashes (L.append H ts text) =
      storedHashes L ++ [H (L.prev_hash ++ (ts ++ " " ++ text))] := by
  simp [storedHashes, BlackBoxLedger.append]

theorem recomputeChain_snoc (H : String → String) (g : String)
    (l : List (String × String)) (x : String × String) :
    recomputeChain H g (l ++ [x]) =
      recomputeChain H g l ++
        [H ((recomputeChain H g l).getLastD g ++ (x.1 ++ " " ++ x.2))] := by
  induction l generalizing g with
  | nil => simp [recomputeChain]
  | cons p rest ih =>
    simp only [List.cons_append, List.append_eq, recomputeChain, ih, List.getLastD_cons]

theorem buildLedger_pairs (H : String → String) (items : List (String × String)) :
    ∀ L : BlackBoxLedger,
      storedPairs (buildLedger H L items) = storedPairs L ++ items := by
  induction items with
  | nil => intro L; simp [buildLedger]
  | cons p rest ih =>
    intro L
    rw [buildLedger, ih, storedPairs_append, List.append_assoc, List.singleton_append]

theorem buildLedger_chain (H : String → String) (items : List (String × String)) :
    ∀ L : BlackBoxLedger,
      recomputeChain H "GENESIS" (storedPairs L) = storedHashes L →
      L.prev_hash = (storedHashes L).getLastD "GENESIS" →
      recomputeChain H "GENESIS" (storedPairs (buildLedger H L items)) =
        storedHashes (buildLedger H L items) ∧
      (buildLedger H L items).prev_hash =
        (storedHashes (buildLedger H L items)).getLastD "GENESIS" := by
  induction items with
  | nil => intro L h1 h2; exact ⟨h1, h2⟩
  | cons p rest ih =>
    intro L h1 h2
    rw [buildLedger]
    apply ih
    · rw [storedPairs_append, recomputeChain_snoc, h1, storedHashes_append, ← h2]
    · rw [storedHashes_append]
      simp [BlackBoxLedger.append, List.getLastD_concat]

theorem recomputeChain_length (H : String → String) (l : List (String × String)) :
    ∀ g, (recomputeChain H g l).length = l.length := by
  induction l with
  | nil => intro g; rfl
  | cons p rest ih => intro g; simp [recomputeChain, ih]

theorem recomputeChain_ne_of_prev_ne (H : String → String) (hinj : Function.Injective H)
    (l : List (String × String)) :
    ∀ (g g2 : String), g ≠ g2 → ∀ i, i < l.length →
      (recomputeChain H g l)[i]? ≠ (recomputeChain H g2 l)[i]? := by
  induction l with
  | nil =>
    intro g g2 hne i hi
    simp at hi
  | cons p rest ih =>
    intro g g2 hne i hi
    have hheads : H (g ++ (p.1 ++ " " ++ p.2)) ≠ H (g2 ++ (p.1 ++ " " ++ p.2)) := by
      intro hEq
      exact hne (strAppend_cancel_right (hinj hEq))
    cases i with
    | zero =>
      simp only [recomputeChain, List.getElem?_cons_zero]
      intro hEq
      injection hEq with h
      exact hheads h
    | succ j =>
      simp only [recomputeChain, List.getElem?_cons_succ]
      refine ih _ _ hheads j ?_
      simp only [List.length_cons] at hi
      omega

theorem recomputeChain_mutate (H : String → String) (hinj : Function.Injective H)
    (ts tB tB2 : String) (hne : tB ≠ tB2) (pre : List (String × String)) :
    ∀ (g : String) (suf : List (String × String)) (i : ℕ),
      pre.length ≤ i → i < (pre ++ (ts, tB) :: suf).length →
      (recomputeChain H g (pre ++ (ts, tB) :: suf))[i]? ≠
        (recomputeChain H g (pre ++ (ts, tB2) :: suf))[i]? := by
  induction pre with
  | nil =>
    intro g suf i h0 hlen
    have hheads : H (g ++ (ts ++ " " ++ tB)) ≠ H (g ++ (ts ++ " " ++ tB2)) := by
      intro hEq
      exact hne (strAppend_cancel_left (strAppend_cancel_left (hinj hEq)))
    cases i with
    | zero =>
      simp only [List.nil_append, recomputeChain, List.getElem?_cons_zero]
      intro hEq
      injection hEq with h
      exact hheads h
    | succ j =>
      simp only [List.nil_append, recomputeChain, List.getElem?_cons_succ]
      refine recomputeChain_ne_of_prev_ne H hinj suf _ _ hheads j ?_
      simp only [List.nil_append, List.length_cons] at hlen
      omega
  | cons q rest ih =>
    intro g suf i hpre hlen
    cases i with
    | zero =>
      simp at hpre
    | succ j =>
      simp only [List.cons_append, recomputeChain, List.getElem?_cons_succ]
      refine ih _ suf j ?_ ?_
      · simp only [List.length_cons] at hpre
        omega
      · simp only [List.cons_append, List.length_cons] at hlen
        omega

/-- C8: each ledger entry's hash is the hash of the previous entry's hash
concatenated with the entry's timestamp-and-payload text, anchored at the
genesis constant "GENESIS": for every hash function and every sequence of
appended events, the stored (timestamp, payload) pairs are exactly the
appended events, recomputing the chain from genesis over them reproduces
every stored hash, and — when the hash function is collision-free
(injective) — mutating the payload of any stored entry changes the
recomputed hash of that entry and of every later entry. -/
theorem ledger_hash_chain :
    (∀ (H : String → String) (items : List (String × String)),
      storedPairs (buildLedger H BlackBoxLedger.init items) = items ∧
      recomputeChain H "GENESIS" (storedPairs (buildLedger H BlackBoxLedger.init items)) =
        storedHashes (buildLedger H BlackBoxLedger.init items)) ∧
    (∀ H : String → String, Function.Injective H →
      ∀ (pre suf : List (String × String)) (ts tB tB2 : String), tB ≠ tB2 →
        ∀ i, pre.length ≤ i → i < (pre ++ (ts, tB) :: suf).length →
          (recomputeChain H "GENESIS" (pre ++ (ts, tB) :: suf))[i]? ≠
            (recomputeChain H "GENESIS" (pre ++ (ts, tB2) :: suf))[i]?) := by
  constructor
  · intro H items
    constructor
    · rw [buildLedger_pairs]
      simp [storedPairs, BlackBoxLedger.init]
    · exact (buildLedger_chain H items BlackBoxLedger.init rfl rfl).1
  · intro H hinj pre suf ts tB tB2 hne i h1 h2
    exact recomputeChain_mutate H hinj ts tB tB2 hne pre "GENESIS" suf i h1 h2

/-- Witness for the tampering hypotheses of `ledger_hash_chain`: with the
identity function as (injective) hash, appending "A", "B", "C" and then
mutating the payload of "B" to "X" changes the recomputed hash at index 1
(the mutated entry itself). -/
theorem ledger_hash_chain_witness :
    Function.Injective (fun s : String => s) ∧
    ("B" : String) ≠ "X" ∧
    ([(("t1" : String), ("A" : String))].length ≤ 1 ∧
      1 < ([(("t1" : String), ("A" : String))] ++ ("t2", "B") :: [("t3", "C")]).length) ∧
    (recomputeChain (fun s : String => s) "GENESIS"
        ([("t1", "A")] ++ ("t2", "B") :: [("t3", "C")]))[1]? ≠
      (recomputeChain (fun s : String => s) "GENESIS"
        ([("t1", "A")] ++ ("t2", "X") :: [("t3", "C")]))[1]? := by
  have hinj : Function.Injective (fun s : String => s) := fun a b h => h
  have hne : ("B" : String) ≠ "X" := by decide
  refine ⟨hinj, hne, ⟨by simp, by simp⟩, ?_⟩
  exact ledger_hash_chain.2 (fun s : String => s) hinj [("t1", "A")] [("t3", "C")]
    "t2" "B" "X" hne 1 (by simp) (by simp)
